import Mathlib

/-!
Verification of the lndev static-site generator pipeline.

The Rust program in src/main.rs is shallowly embedded here. Modelling
conventions:

- File-system paths handed to the content pipeline are modelled in
  component form by the structure RPath: a list of directory components
  plus a base name. Rust Path operations (parent, file_stem, extension)
  are implemented over that form with the semantics documented for
  std::path::Path.
- Rust str operations with byte-level implementations (starts_with,
  ends_with, trim_start_matches) are embedded at character level, which
  agrees with the byte-level versions on UTF-8 text.
- Machine integers (the u64 reading-time seconds) are modelled as Nat;
  no arithmetic here can overflow, so no modular reduction is needed.
- External collaborators (Markdown converter, front-matter decoder,
  template engine, reading-time estimator, HTML minifier) are explicit
  function parameters gathered in the Externals structure, matching the
  black-box contracts the design assigns them. Byte buffers are List Nat
  with values below 256.
- Fallible operations return Except BuildError; a decode failure, which
  the Rust code turns into a panic via unwrap, is modelled as the fatal
  error it is for the build.
- Side effects are made explicit: a file write is a Write record (the
  directories ensured by create_dir_all, the target path, the bytes
  written), and the driver returns the list of writes it performed
  together with an optional fatal error.
-/

set_option maxRecDepth 40000

namespace Lndev

/-! ## Byte-level string helpers -/

/-- UTF-8 encoding of one character, as byte values. This models how Rust
exposes a str as bytes (as_bytes). -/
def utf8Bytes (c : Char) : List Nat :=
  let n := c.toNat
  if n < 128 then [n]
  else if n < 2048 then [192 + n / 64, 128 + n % 64]
  else if n < 65536 then [224 + n / 4096, 128 + n / 64 % 64, 128 + n % 64]
  else [240 + n / 262144, 128 + n / 4096 % 64, 128 + n / 64 % 64, 128 + n % 64]

/-- The UTF-8 bytes of a string, modelling Rust str::as_bytes. -/
def strBytes (s : String) : List Nat :=
  (s.data.map utf8Bytes).flatten

/-- Bytes kept verbatim by the form-urlencoded serializer of the url
crate: ASCII alphanumerics and the four bytes for asterisk, hyphen,
dot and underscore. -/
def isFormUnreserved (b : Nat) : Bool :=
  (97 ≤ b && b ≤ 122) || (65 ≤ b && b ≤ 90) || (48 ≤ b && b ≤ 57) ||
    b == 42 || b == 45 || b == 46 || b == 95

/-- Upper-case hexadecimal digit for a value below 16. -/
def hexUpper (n : Nat) : Char :=
  if n < 10 then Char.ofNat (48 + n) else Char.ofNat (55 + n)

/-- Encoding of one byte under application/x-www-form-urlencoded rules:
space becomes a plus sign, unreserved bytes stay, all others become a
percent sign followed by two upper-case hex digits. -/
def encodeByte (b : Nat) : String :=
  if b == 32 then "+"
  else if isFormUnreserved b then String.singleton (Char.ofNat b)
  else String.singleton '%' ++ String.singleton (hexUpper (b / 16)) ++
    String.singleton (hexUpper (b % 16))

/-- Embeds url::form_urlencoded::byte_serialize followed by collecting
into a String. -/
def byte_serialize (bs : List Nat) : String :=
  String.join (bs.map encodeByte)

/-- Form-urlencoding of the UTF-8 bytes of a string, as the Rust code
applies it to titles, URLs and joined tags. -/
def form_urlencoded (s : String) : String :=
  byte_serialize (strBytes s)

/-! ## Path helpers -/

/-- Embeds Rust str::starts_with for a string pattern: the pattern
characters are a prefix of the string characters. -/
def starts_with (s pat : String) : Bool :=
  pat.data.isPrefixOf s.data

/-- Embeds Rust str::ends_with for a string pattern: the pattern
characters are a suffix of the string characters. -/
def ends_with (s pat : String) : Bool :=
  pat.data.isSuffixOf s.data

/-- Embeds trim_start_matches with the one-character pattern slash:
repeatedly removing a leading slash is dropping all leading slashes. -/
def trim_start_matches_slash (s : String) : String :=
  ⟨s.data.dropWhile (fun c => c == '/')⟩

/-- Embeds Path::join of a directory and a relative component. -/
def pathJoin (a b : String) : String :=
  a ++ "/" ++ b

/-- Splits a file name at its last dot, walking the reversed character
list and accumulating the extension characters. Returns none when there
is no dot or the only dot is the leading character, matching the
stem and extension rules of std::path::Path. The second argument starts
as the empty accumulator. -/
def stemExtAux : List Char → List Char → Option (List Char × List Char)
  | [], _ => none
  | c :: rest, acc =>
    if c == '.' then (if rest.isEmpty then none else some (rest, acc))
    else stemExtAux rest (c :: acc)

/-- Embeds Path::file_stem on a file name: the portion before the last
dot, or the whole name when there is no dot or the name only has a
leading dot. -/
def file_stem (name : String) : String :=
  match stemExtAux name.data.reverse [] with
  | none => name
  | some (st, _) => ⟨st.reverse⟩

/-- The last slash-separated component of a path string, modelling
Path::file_name for the well-formed file paths this pipeline builds. -/
def lastComponent (s : String) : String :=
  ⟨(s.data.reverse.takeWhile (fun c => c != '/')).reverse⟩

/-- Embeds Path::extension: the portion of the file name after the last
dot, or none when the file name has no dot past its first character. -/
def extension (p : String) : Option String :=
  match stemExtAux (lastComponent p).data.reverse [] with
  | none => none
  | some (_, ex) => some ⟨ex⟩

/-- Splits a character list on slashes into components. -/
def splitSlash : List Char → List (List Char)
  | [] => [[]]
  | c :: rest =>
    match splitSlash rest with
    | [] => [[c]]
    | g :: gs => if c == '/' then [] :: g :: gs else (c :: g) :: gs

/-- The ancestor directories of a file path, outermost first: what
fs::create_dir_all on the parent of the path brings into existence. -/
def ancestorDirs (p : String) : List String :=
  let cs := (splitSlash p.data).map (fun g => String.mk g)
  (List.range (cs.length - 1)).map (fun k => String.intercalate "/" (cs.take (k + 1)))

/-- A file path in component form: directory components, then the base
name. Rust Path operations are interpreted over this form. -/
structure RPath where
  dirs : List String
  base : String
deriving DecidableEq, Inhabited

/-- The path rendered as the string WalkDir would yield. -/
def RPath.toStr (p : RPath) : String :=
  String.intercalate "/" (p.dirs ++ [p.base])

/-- Embeds parent().to_str() on a file path: the directory components
joined by slashes, the empty string for a bare file name. -/
def RPath.parentStr (p : RPath) : String :=
  String.intercalate "/" p.dirs

/-! ## Data model, mirroring the type declarations of main.rs -/

structure CoverMatter where
  image : String
deriving DecidableEq, Inhabited

structure PostMatter where
  title : String
  summary : String
  cover : CoverMatter
  date : String
  modified : Option String
  tags : List String
deriving DecidableEq, Inhabited

structure Social where
  url : String
  label : String
deriving DecidableEq, Inhabited

structure Post where
  matter : PostMatter
  page_title : String
  content : String
  path : String
  full_url : String
  full_image_url : String
  reading_time : String
  twitter : Social
  linkedin : Social
  reddit : Social
  facebook : Social
  whatsapp : Social
  telegram : Social
deriving DecidableEq, Inhabited

structure Blog where
  description : String
  page_title : String
  posts : List Post
deriving DecidableEq, Inhabited

/-- The fatal failure kinds the pipeline can hit. -/
inductive BuildError where
  | ioError : BuildError
  | decodeError : BuildError
  | renderError : BuildError
deriving DecidableEq, Inhabited

instance {ε α : Type} [DecidableEq ε] [DecidableEq α] : DecidableEq (Except ε α) :=
  fun x y =>
    match x, y with
    | Except.ok a, Except.ok b => decidable_of_iff (a = b) (by simp)
    | Except.error e, Except.error f => decidable_of_iff (e = f) (by simp)
    | Except.ok _, Except.error _ => isFalse (fun h => nomatch h)
    | Except.error _, Except.ok _ => isFalse (fun h => nomatch h)

/-- The minify_html configuration fields the source sets explicitly; the
remaining minify-html options keep their defaults and are not consulted
by any claim. -/
structure Cfg where
  do_not_minify_doctype : Bool
  ensure_spec_compliant_unquoted_attribute_values : Bool
  keep_spaces_between_attributes : Bool
  keep_closing_tags : Bool
deriving DecidableEq, Inhabited

/-- The fixed configuration built inside minify_html. -/
def htmlCfg : Cfg :=
  Cfg.mk true true true true

/-- The external collaborators the design treats as black boxes. -/
structure Externals where
  mdToHtml : String → String
  readTime : String → Nat
  parseMatter : String → Option (PostMatter × String)
  renderPost : Post → Except BuildError String
  renderBlog : Blog → Except BuildError String
  minify : Cfg → List Nat → List Nat

/-! ## Constants -/

def ORIGIN : String := "https://lndev.nl"
def OUT_DIR : String := "out"
def PUBLIC_DIR : String := "public"
def POSTS_DIR : String := "posts"
def DRAFTS_DIR : String := "drafts"

/-! ## Output writer -/

/-- One performed file write: the directories ensured to exist, the
target path, and the bytes written. -/
structure Write where
  dirs : List String
  path : String
  bytes : List Nat
deriving DecidableEq, Inhabited

/-- Embeds fn minify_html: the minifier applied with the fixed
configuration. -/
def minify_html (ext : Externals) (contents : List Nat) : List Nat :=
  ext.minify htmlCfg contents

/-- Embeds fn write_file: ancestor directories are created, then the
buffer is minified exactly when the target extension is html, and
written. -/
def write_file (ext : Externals) (path : String) (contents : List Nat) : Write :=
  let modified : Option (List Nat) :=
    match extension path with
    | some e => if e == "html" then some (minify_html ext contents) else none
    | none => none
  Write.mk (ancestorDirs path) path (modified.getD contents)

/-- A directory listing of static assets, encoded list-style so that all
recursion over it is structural: the end of a listing, a file followed by
the rest of the listing, or a subdirectory (with its own listing)
followed by the rest. -/
inductive FsTree where
  | leaf : FsTree
  | fileCons : String → List Nat → FsTree → FsTree
  | dirCons : String → FsTree → FsTree → FsTree
deriving DecidableEq, Inhabited

/-- Embeds fn copy_dir_all together with fn copy_file: the read_dir
sequence is walked entry by entry, directories recurse into the joined
destination, files are written through write_file. -/
def copy_dir_all (ext : Externals) (dst : String) : FsTree → List Write
  | FsTree.leaf => []
  | FsTree.fileCons name c rest =>
    write_file ext (pathJoin dst name) c :: copy_dir_all ext dst rest
  | FsTree.dirCons name sub rest =>
    copy_dir_all ext (pathJoin dst name) sub ++ copy_dir_all ext dst rest

/-- The files of a tree, as destination-relative path and content. -/
def filesOf : FsTree → List (String × List Nat)
  | FsTree.leaf => []
  | FsTree.fileCons n c rest => (n, c) :: filesOf rest
  | FsTree.dirCons n sub rest =>
    (filesOf sub).map (fun pc => (pathJoin n pc.1, pc.2)) ++ filesOf rest

/-! ## Content parser -/

/-- The reading-time bucketing of get_post: seconds below sixty, whole
minutes by integer division from sixty up. -/
def readTimeLabel (s : Nat) : String :=
  if s < 60 then Nat.repr s ++ " sec read" else Nat.repr (s / 60) ++ " min read"

/-- Embeds fn get_post. The file system is a lookup from path to file
text; a missing file models a read failure, and a front-matter decode
failure (which the Rust code turns into a panic via unwrap) is the
decode error. -/
def get_post (ext : Externals) (fsys : RPath → Option String)
    (relative_path : RPath) : Except BuildError Post :=
  let slug := file_stem relative_path.base
  let path0 := relative_path.parentStr ++ "/" ++ slug
  let path := if starts_with path0 "/" then path0 else "/" ++ path0
  let origin := ORIGIN
  let full_url := origin ++ path
  match fsys relative_path with
  | none => Except.error BuildError.ioError
  | some file_content =>
    match ext.parseMatter file_content with
    | none => Except.error BuildError.decodeError
    | some parsed =>
      let data := parsed.1
      let content := ext.mdToHtml parsed.2
      let read_time_seconds := ext.readTime parsed.2
      let read_time := readTimeLabel read_time_seconds
      let encoded_title := form_urlencoded data.title
      let encoded_url := form_urlencoded full_url
      let encoded_tags := form_urlencoded (String.intercalate "," data.tags)
      let lbl := fun (name : String) => "Share " ++ data.title ++ " on " ++ name
      Except.ok (Post.mk
        data
        ("lndev - " ++ data.title)
        content
        path
        full_url
        (origin ++ data.cover.image)
        read_time
        (Social.mk
          ("https://x.com/intent/tweet/?text=" ++ encoded_title ++ "&url=" ++
            encoded_url ++ "&hashtags=" ++ encoded_tags)
          (lbl "X"))
        (Social.mk
          ("https://www.linkedin.com/shareArticle?mini=true&url=" ++ encoded_url ++
            "&title=" ++ encoded_title ++ "&summary=" ++ encoded_title ++
            "&source=" ++ encoded_url)
          (lbl "LinkedIn"))
        (Social.mk
          ("https://reddit.com/submit?url=" ++ encoded_url ++ "&title=" ++ encoded_title)
          (lbl "Reddit"))
        (Social.mk
          ("https://facebook.com/sharer/sharer.php?u=" ++ encoded_url)
          (lbl "Facebook"))
        (Social.mk
          ("https://api.whatsapp.com/send?text=" ++ encoded_title ++ "%20-%20" ++ encoded_url)
          (lbl "WhatsApp"))
        (Social.mk
          ("https://telegram.me/share/url?text=" ++ encoded_title ++ "&url=" ++ encoded_url)
          (lbl "Telegram")))

/-- The six share links of a Post, with their platform names. -/
def shareLinks (p : Post) : List (String × Social) :=
  [("X", p.twitter), ("Facebook", p.facebook), ("LinkedIn", p.linkedin),
   ("Reddit", p.reddit), ("WhatsApp", p.whatsapp), ("Telegram", p.telegram)]

/-! ## Collection builder -/

/-- One WalkDir traversal entry: a per-entry error, a directory, or a
file whose Boolean records whether its path is valid UTF-8 under the
OS encoding. -/
inductive WEntry where
  | err : WEntry
  | dir : RPath → WEntry
  | file : RPath → Bool → WEntry
deriving DecidableEq, Inhabited

/-- Embeds the result call e.ok(): errors become none. -/
def entryOk : WEntry → Option WEntry
  | WEntry.err => none
  | e => some e

/-- Embeds e.file_type().is_file(). -/
def entryIsFile : WEntry → Bool
  | WEntry.file _ _ => true
  | _ => false

/-- Embeds e.path().to_str(): the path when it is valid UTF-8. -/
def entryPathStr : WEntry → Option RPath
  | WEntry.file rp u => if u then some rp else none
  | WEntry.dir rp => some rp
  | WEntry.err => none

/-- Whether an entry is a traversal error. -/
def WEntry.isErr : WEntry → Bool
  | WEntry.err => true
  | _ => false

/-- The filter chain of collect_posts: keep Ok entries, keep files,
keep UTF-8 paths, keep paths ending in the Markdown extension. -/
def collectPaths (entries : List WEntry) : List RPath :=
  ((((entries.filterMap entryOk).filter entryIsFile).filterMap entryPathStr).filter
    (fun rp => ends_with rp.toStr ".md"))

/-- Embeds collect into Result of Vec: the first error wins, otherwise
all values are collected in order. -/
def collectResults {α : Type} : List (Except BuildError α) → Except BuildError (List α)
  | [] => Except.ok []
  | x :: xs =>
    match x with
    | Except.error e => Except.error e
    | Except.ok a =>
      match collectResults xs with
      | Except.error e => Except.error e
      | Except.ok rest => Except.ok (a :: rest)

/-- Lexicographic comparison of character lists, used to embed the Ord
comparison Rust String::cmp performs; on UTF-8 text the byte order Rust
compares coincides with this character order. -/
def chListLe : List Char → List Char → Bool
  | [], _ => true
  | _ :: _, [] => false
  | a :: as, b :: bs =>
    if a < b then true else if b < a then false else chListLe as bs

theorem chListLe_iff_not_lt : ∀ x y : List Char, chListLe x y = true ↔ ¬ List.lt y x := by
  intro x
  induction x with
  | nil =>
    intro y
    exact iff_of_true rfl (fun h => nomatch h)
  | cons a as ih =>
    intro y
    cases y with
    | nil =>
      refine iff_of_false (by simp [chListLe]) (not_not_intro (List.lt.nil a as))
    | cons b bs =>
      by_cases h1 : a < b
      · refine iff_of_true (by simp [chListLe, h1]) (fun hlt => ?_)
        cases hlt with
        | head _ _ hba => exact absurd hba (lt_asymm h1)
        | tail hba hab _ => exact absurd h1 hab
      · by_cases h2 : b < a
        · refine iff_of_false (by simp [chListLe, h1, h2])
            (not_not_intro (List.lt.head _ _ h2))
        · have hiff : List.lt (b :: bs) (a :: as) ↔ List.lt bs as := by
            constructor
            · intro hlt
              cases hlt with
              | head _ _ hba => exact absurd hba h2
              | tail _ _ h3 => exact h3
            · intro h3
              exact List.lt.tail h2 h1 h3
          simp only [chListLe, if_neg h1, if_neg h2, hiff, ih bs]

theorem chListLe_iff_le (s t : String) : chListLe s.data t.data = true ↔ s ≤ t := by
  rw [String.le_iff_toList_le, ← not_lt, chListLe_iff_not_lt]
  exact not_congr (List.lt_iff_lex_lt t.data s.data)

/-- The comparator of the sort in collect_posts: a may precede b when
the date of b is at most the date of a, that is, dates descending. -/
def dateDesc (a b : Post) : Prop :=
  b.matter.date ≤ a.matter.date

instance : DecidableRel dateDesc :=
  fun a b =>
    decidable_of_iff (chListLe b.matter.date.data a.matter.date.data = true)
      (chListLe_iff_le b.matter.date a.matter.date)

instance : IsTotal Post dateDesc :=
  ⟨fun a b => le_total b.matter.date a.matter.date⟩

instance : IsTrans Post dateDesc :=
  ⟨fun _ _ _ h1 h2 => le_trans h2 h1⟩

/-- Embeds fn collect_posts. Rust sort_by is a stable sort; it is
embedded as the stable insertion sort with the same comparator, with
which it agrees element for element. -/
def collect_posts (ext : Externals) (fsys : RPath → Option String)
    (entries : List WEntry) : Except BuildError (List Post) :=
  match collectResults ((collectPaths entries).map (get_post ext fsys)) with
  | Except.error e => Except.error e
  | Except.ok posts => Except.ok (posts.insertionSort dateDesc)

/-! ## Driver -/

/-- The inputs of one build: the static-assets tree, the traversal
entries of the two content roots, and the readable files. -/
structure World where
  publicEntries : FsTree
  postsEntries : List WEntry
  draftsEntries : List WEntry
  readFile : RPath → Option String

/-- The output path of one rendered page, as main builds it. -/
def postOutPath (p : Post) : String :=
  pathJoin (pathJoin OUT_DIR (trim_start_matches_slash p.path)) "index.html"

/-- The page-writing loop of main over the chained collections: render
each post and write it, stopping at the first render failure. -/
def writePages (ext : Externals) : List Post → List Write × Option BuildError
  | [] => ([], none)
  | p :: ps =>
    match ext.renderPost p with
    | Except.error e => ([], some e)
    | Except.ok html =>
      match writePages ext ps with
      | (ws, err) => (write_file ext (postOutPath p) (strBytes html) :: ws, err)

/-- The published-posts listing record main constructs. -/
def blogFor (posts : List Post) : Blog :=
  Blog.mk "Where insights are shared on development on the lightning network."
    "lndev - blog" posts

/-- The drafts listing record main constructs. -/
def draftBlogFor (drafts : List Post) : Blog :=
  Blog.mk "Currently unfinished drafts" "lndev - drafts" drafts

/-- Embeds fn main: copy the assets, build both collections, write one
page per post, then the two listing pages. Returns the writes performed
and the first fatal error, if any. -/
def main (ext : Externals) (w : World) : List Write × Option BuildError :=
  let aw := copy_dir_all ext OUT_DIR w.publicEntries
  match collect_posts ext w.readFile w.postsEntries with
  | Except.error e => (aw, some e)
  | Except.ok posts =>
    match collect_posts ext w.readFile w.draftsEntries with
    | Except.error e => (aw, some e)
    | Except.ok drafts =>
      match writePages ext (posts ++ drafts) with
      | (pws, some e) => (aw ++ pws, some e)
      | (pws, none) =>
        match ext.renderBlog (blogFor posts) with
        | Except.error e => (aw ++ pws, some e)
        | Except.ok bhtml =>
          let bw := write_file ext (pathJoin (pathJoin OUT_DIR "blog") "index.html")
            (strBytes bhtml)
          match ext.renderBlog (draftBlogFor drafts) with
          | Except.error e => (aw ++ pws ++ [bw], some e)
          | Except.ok dhtml =>
            let dw := write_file ext (pathJoin (pathJoin OUT_DIR "drafts") "index.html")
              (strBytes dhtml)
            (aw ++ pws ++ [bw, dw], none)

/-! ## Derived definitions used by the statements -/

/-- The Page that get_post constructs when reading and decoding succeed,
as a function of the parsed front matter and body. -/
def mkPost (ext : Externals) (relative_path : RPath) (parsed : PostMatter × String) : Post :=
  let slug := file_stem relative_path.base
  let path0 := relative_path.parentStr ++ "/" ++ slug
  let path := if starts_with path0 "/" then path0 else "/" ++ path0
  let origin := ORIGIN
  let full_url := origin ++ path
  let data := parsed.1
  let content := ext.mdToHtml parsed.2
  let read_time := readTimeLabel (ext.readTime parsed.2)
  let encoded_title := form_urlencoded data.title
  let encoded_url := form_urlencoded full_url
  let encoded_tags := form_urlencoded (String.intercalate "," data.tags)
  let lbl := fun (name : String) => "Share " ++ data.title ++ " on " ++ name
  Post.mk
    data
    ("lndev - " ++ data.title)
    content
    path
    full_url
    (origin ++ data.cover.image)
    read_time
    (Social.mk
      ("https://x.com/intent/tweet/?text=" ++ encoded_title ++ "&url=" ++
        encoded_url ++ "&hashtags=" ++ encoded_tags)
      (lbl "X"))
    (Social.mk
      ("https://www.linkedin.com/shareArticle?mini=true&url=" ++ encoded_url ++
        "&title=" ++ encoded_title ++ "&summary=" ++ encoded_title ++
        "&source=" ++ encoded_url)
      (lbl "LinkedIn"))
    (Social.mk
      ("https://reddit.com/submit?url=" ++ encoded_url ++ "&title=" ++ encoded_title)
      (lbl "Reddit"))
    (Social.mk
      ("https://facebook.com/sharer/sharer.php?u=" ++ encoded_url)
      (lbl "Facebook"))
    (Social.mk
      ("https://api.whatsapp.com/send?text=" ++ encoded_title ++ "%20-%20" ++ encoded_url)
      (lbl "WhatsApp"))
    (Social.mk
      ("https://telegram.me/share/url?text=" ++ encoded_title ++ "&url=" ++ encoded_url)
      (lbl "Telegram"))

/-- The fused form of the filter chain of collect_posts: an entry
contributes its path exactly when it is a file, its path is valid UTF-8,
and the path string ends in the Markdown extension. -/
def selectEntry : WEntry → Option RPath
  | WEntry.file rp u => if u && ends_with rp.toStr ".md" then some rp else none
  | _ => none

/-! ## Concrete fixtures used by the closed instances -/

/-- Trivial collaborators: the decoder succeeds and stores the file text
as the date, rendering and minification are benign. -/
def exStub : Externals :=
  Externals.mk (fun s => s) (fun _ => 0)
    (fun c => some (PostMatter.mk "t" "s" (CoverMatter.mk "/i.png") c none [], ""))
    (fun _ => Except.ok "P") (fun _ => Except.ok "B") (fun _ b => b)

/-- A file system where every file reads as a fixed date string. -/
def fsStub : RPath → Option String :=
  fun _ => some "2024-01-01"

/-- Collaborators whose decoder produces a post titled Hello World. -/
def exHello : Externals :=
  Externals.mk (fun s => s) (fun s => s.length)
    (fun c => some
      (PostMatter.mk "Hello World" "sum" (CoverMatter.mk "/img/c.png") "2024-01-01"
        none ["lightning", "dev"], c))
    (fun _ => Except.ok "P") (fun _ => Except.ok "B") (fun _ b => b)

def fsHello : RPath → Option String :=
  fun _ => some "body text"

def rpHello : RPath :=
  RPath.mk ["blog"] "hello.md"

/-- The page built from the Hello World fixture. -/
def pHello : Post :=
  (get_post exHello fsHello rpHello).toOption.getD default

/-- A file system mapping three posts to three distinct dates. -/
def fsC4 : RPath → Option String :=
  fun rp =>
    if rp.base == "a.md" then some "2023-01-01"
    else if rp.base == "b.md" then some "2024-06-15"
    else some "2023-06-01"

def entriesC4 : List WEntry :=
  [WEntry.file (RPath.mk ["posts"] "a.md") true,
   WEntry.file (RPath.mk ["posts"] "b.md") true,
   WEntry.file (RPath.mk ["posts"] "c.md") true]

/-- The three parsed pages of the date fixture, in traversal order. -/
def postsC4 : List Post :=
  (collectResults ((collectPaths entriesC4).map (get_post exStub fsC4))).toOption.getD []

/-- Collaborators whose front-matter decoder always fails, as for a
block missing the required title field. -/
def exBad : Externals :=
  Externals.mk (fun s => s) (fun _ => 0) (fun _ => none)
    (fun _ => Except.ok "P") (fun _ => Except.ok "B") (fun _ b => b)

def rpBad : RPath :=
  RPath.mk ["posts"] "a.md"

/-- A world with one asset file and one malformed post source. -/
def wBad : World :=
  World.mk (FsTree.fileCons "s.css" [7] FsTree.leaf)
    [WEntry.file rpBad true] [] (fun _ => some "x")

/-- A world with one asset, one post and one draft, all well-formed. -/
def wC9 : World :=
  World.mk (FsTree.fileCons "s.css" [7] FsTree.leaf)
    [WEntry.file (RPath.mk ["posts"] "a.md") true]
    [WEntry.file (RPath.mk ["drafts"] "d.md") true]
    fsStub

def postsC9 : List Post :=
  (collect_posts exStub wC9.readFile wC9.postsEntries).toOption.getD []

def draftsC9 : List Post :=
  (collect_posts exStub wC9.readFile wC9.draftsEntries).toOption.getD []

def wsC9 : List Write :=
  (main exStub wC9).1

/-! ## Helper lemmas -/

theorem starts_with_slash_append (s : String) : starts_with ("/" ++ s) "/" = true := by
  show List.isPrefixOf ['/'] ('/' :: s.data) = true
  simp [List.isPrefixOf]

theorem data_ne_nil_of_ne_empty {b : String} (hb : b ≠ "") : b.data ≠ [] := by
  intro h
  exact hb (String.ext h)

theorem file_stem_append_md (b : String) (hb : b ≠ "") : file_stem (b ++ ".md") = b := by
  have hne : b.data.reverse ≠ [] := by
    simpa using data_ne_nil_of_ne_empty hb
  obtain ⟨c, cs, hrev⟩ : ∃ c cs, b.data.reverse = c :: cs := by
    cases hr : b.data.reverse with
    | nil => exact absurd hr hne
    | cons c cs => exact ⟨c, cs, rfl⟩
  have hd : (b ++ ".md").data.reverse = 'd' :: 'm' :: '.' :: (c :: cs) := by
    show (b.data ++ ['.', 'm', 'd']).reverse = _
    rw [List.reverse_append, hrev]
    rfl
  have hstep : stemExtAux ('d' :: 'm' :: '.' :: (c :: cs)) [] = some (c :: cs, ['m', 'd']) := rfl
  unfold file_stem
  rw [hd, hstep]
  show String.mk (c :: cs).reverse = b
  rw [← hrev, List.reverse_reverse]

theorem get_post_eq (ext : Externals) (fsys : RPath → Option String) (rp : RPath) :
    get_post ext fsys rp =
      (match fsys rp with
      | none => Except.error BuildError.ioError
      | some c =>
        match ext.parseMatter c with
        | none => Except.error BuildError.decodeError
        | some parsed => Except.ok (mkPost ext rp parsed)) := rfl

theorem get_post_some (ext : Externals) (fsys : RPath → Option String) (rp : RPath)
    (c : String) (h : fsys rp = some c) :
    get_post ext fsys rp =
      (match ext.parseMatter c with
      | none => Except.error BuildError.decodeError
      | some parsed => Except.ok (mkPost ext rp parsed)) := by
  rw [get_post_eq, h]

theorem get_post_ok_elim {ext : Externals} {fsys : RPath → Option String} {rp : RPath}
    {post : Post} (h : get_post ext fsys rp = Except.ok post) :
    ∃ c parsed, fsys rp = some c ∧ ext.parseMatter c = some parsed ∧
      post = mkPost ext rp parsed := by
  cases hf : fsys rp with
  | none =>
    rw [get_post_eq, hf] at h
    exact absurd h (by simp)
  | some c =>
    rw [get_post_some ext fsys rp c hf] at h
    cases hp : ext.parseMatter c with
    | none =>
      rw [hp] at h
      exact absurd h (by simp)
    | some parsed =>
      rw [hp] at h
      exact ⟨c, parsed, rfl, hp, (Except.ok.inj h).symm⟩

theorem collectResults_error_of_mem {α : Type} {l : List (Except BuildError α)}
    {e : BuildError} (h : Except.error e ∈ l) :
    ∃ e2, collectResults l = Except.error e2 := by
  induction l with
  | nil => exact absurd h (List.not_mem_nil _)
  | cons x xs ih =>
    rcases List.mem_cons.mp h with hx | hx
    · subst hx
      exact ⟨e, rfl⟩
    · cases x with
      | error f => exact ⟨f, rfl⟩
      | ok a =>
        obtain ⟨e2, h2⟩ := ih hx
        exact ⟨e2, by simp [collectResults, h2]⟩

theorem collectPaths_eq (entries : List WEntry) :
    collectPaths entries = entries.filterMap selectEntry := by
  induction entries with
  | nil => rfl
  | cons e es ih =>
    simp only [collectPaths] at ih ⊢
    cases e with
    | err =>
      simp [List.filterMap_cons, entryOk, selectEntry, ih]
    | dir rp =>
      simp [List.filterMap_cons, List.filter_cons, entryOk, entryIsFile, selectEntry, ih]
    | file rp u =>
      cases u with
      | false =>
        simp [List.filterMap_cons, List.filter_cons, entryOk, entryIsFile, entryPathStr,
          selectEntry, ih]
      | true =>
        by_cases hm : ends_with rp.toStr ".md" = true
        · simp [List.filterMap_cons, List.filter_cons, entryOk, entryIsFile, entryPathStr,
            selectEntry, hm, ih]
        · simp [List.filterMap_cons, List.filter_cons, entryOk, entryIsFile, entryPathStr,
            selectEntry, hm, ih]

theorem collectPaths_filter_not_err (entries : List WEntry) :
    collectPaths (entries.filter (fun e => !e.isErr)) = collectPaths entries := by
  rw [collectPaths_eq, collectPaths_eq]
  induction entries with
  | nil => rfl
  | cons e es ih =>
    cases e with
    | err => exact ih
    | dir rp => exact ih
    | file rp u =>
      show List.filterMap selectEntry
          (WEntry.file rp u :: List.filter (fun e => !e.isErr) es) =
        List.filterMap selectEntry (WEntry.file rp u :: es)
      simp only [List.filterMap_cons]
      cases hs : selectEntry (WEntry.file rp u) <;> simp [hs, ih]

theorem collect_posts_filter_not_err (ext : Externals) (fsys : RPath → Option String)
    (entries : List WEntry) :
    collect_posts ext fsys (entries.filter (fun e => !e.isErr)) =
      collect_posts ext fsys entries := by
  unfold collect_posts
  rw [collectPaths_filter_not_err]

theorem filterMap_selectEntry_all_err :
    ∀ (l : List WEntry), (∀ e ∈ l, e = WEntry.err) → l.filterMap selectEntry = [] := by
  intro l
  induction l with
  | nil => intro _; rfl
  | cons e es ih =>
    intro hl
    have he := hl e (List.mem_cons_self e es)
    subst he
    simp only [List.filterMap_cons, selectEntry]
    exact ih (fun x hx => hl x (List.mem_cons_of_mem _ hx))

theorem collect_posts_all_err (ext : Externals) (fsys : RPath → Option String)
    (entries : List WEntry) (h : ∀ e ∈ entries, e = WEntry.err) :
    collect_posts ext fsys entries = Except.ok [] := by
  unfold collect_posts
  rw [collectPaths_eq, filterMap_selectEntry_all_err entries h]
  rfl

theorem writePages_ok_mem {ext : Externals} :
    ∀ {l : List Post} {ws : List Write}, writePages ext l = (ws, none) →
      ∀ p ∈ l, ∃ html, ext.renderPost p = Except.ok html ∧
        write_file ext (postOutPath p) (strBytes html) ∈ ws := by
  intro l
  induction l with
  | nil =>
    intro ws _ p hp
    exact absurd hp (List.not_mem_nil p)
  | cons q qs ih =>
    intro ws h p hp
    cases hr : ext.renderPost q with
    | error e =>
      simp only [writePages] at h
      rw [hr] at h
      exact absurd (congrArg Prod.snd h) (by simp)
    | ok html =>
      cases hw2 : writePages ext qs with
      | mk ws2 err2 =>
        simp only [writePages] at h
        rw [hr, hw2] at h
        injection h with h1 h2
        subst h2
        rcases List.mem_cons.mp hp with hpq | hpq
        · subst hpq
          exact ⟨html, hr, by rw [← h1]; exact List.mem_cons_self _ _⟩
        · obtain ⟨h3, hh3, hm3⟩ := ih hw2 p hpq
          exact ⟨h3, hh3, by rw [← h1]; exact List.mem_cons_of_mem _ hm3⟩

theorem write_file_bytes (ext : Externals) (path : String) (contents : List Nat) :
    (write_file ext path contents).bytes =
      (if extension path = some "html" then minify_html ext contents else contents) := by
  unfold write_file
  cases hx : extension path with
  | none => simp [hx]
  | some e =>
    by_cases he : e = "html"
    · subst he
      simp [hx]
    · simp [hx, he]

theorem pathJoin_assoc (a b c : String) :
    pathJoin (pathJoin a b) c = pathJoin a (pathJoin b c) := by
  unfold pathJoin
  simp [String.append_assoc]

theorem copy_dir_all_eq (ext : Externals) (dst : String) (t : FsTree) :
    copy_dir_all ext dst t =
      (filesOf t).map (fun pc => write_file ext (pathJoin dst pc.1) pc.2) := by
  induction t generalizing dst with
  | leaf => rfl
  | fileCons n c rest ih =>
    simp [copy_dir_all, filesOf, ih]
  | dirCons n sub rest ihsub ihrest =>
    simp [copy_dir_all, filesOf, ihsub, ihrest, List.map_map, pathJoin_assoc,
      Function.comp]

theorem main_ok_elim {ext : Externals} {w : World} {ws : List Write}
    (hm : main ext w = (ws, none)) :
    ∃ posts drafts pws bh dh,
      collect_posts ext w.readFile w.postsEntries = Except.ok posts
      ∧ collect_posts ext w.readFile w.draftsEntries = Except.ok drafts
      ∧ writePages ext (posts ++ drafts) = (pws, none)
      ∧ ext.renderBlog (blogFor posts) = Except.ok bh
      ∧ ext.renderBlog (draftBlogFor drafts) = Except.ok dh
      ∧ ws = copy_dir_all ext OUT_DIR w.publicEntries ++ pws ++
          [write_file ext (pathJoin (pathJoin OUT_DIR "blog") "index.html")
            (strBytes bh),
           write_file ext (pathJoin (pathJoin OUT_DIR "drafts") "index.html")
            (strBytes dh)] := by
  unfold main at hm
  split at hm
  · exact absurd (congrArg Prod.snd hm) (by simp)
  · rename_i posts heqp
    split at hm
    · exact absurd (congrArg Prod.snd hm) (by simp)
    · rename_i drafts heqd
      split at hm
      · exact absurd (congrArg Prod.snd hm) (by simp)
      · rename_i pws heqw
        split at hm
        · exact absurd (congrArg Prod.snd hm) (by simp)
        · rename_i bh heqb
          split at hm
          · exact absurd (congrArg Prod.snd hm) (by simp)
          · rename_i dh heqd2
            refine ⟨posts, drafts, pws, bh, dh, heqp, heqd, heqw, heqb, heqd2, ?_⟩
            have h2 := congrArg Prod.fst hm
            simpa using h2.symm

/-! ## Claim theorems -/

/-- C1: for every content file, the slug is the file base name with the
extension stripped, and route_path joins the parent-directory path with a
slash and the slug, inserting a leading slash when the joined string does
not already start with one; consequently route_path always starts with a
slash. -/
theorem route_path_spec (ext : Externals) (fsys : RPath → Option String)
    (rp : RPath) (post : Post) (h : get_post ext fsys rp = Except.ok post) :
    post.path =
      (if starts_with (rp.parentStr ++ "/" ++ file_stem rp.base) "/"
        then rp.parentStr ++ "/" ++ file_stem rp.base
        else "/" ++ (rp.parentStr ++ "/" ++ file_stem rp.base))
    ∧ starts_with post.path "/" = true
    ∧ (∀ b : String, b ≠ "" → rp.base = b ++ ".md" → file_stem rp.base = b) := by
  obtain ⟨c, parsed, hf, hp, hpost⟩ := get_post_ok_elim h
  subst hpost
  refine ⟨rfl, ?_, ?_⟩
  · show starts_with
      (if starts_with (rp.parentStr ++ "/" ++ file_stem rp.base) "/"
        then rp.parentStr ++ "/" ++ file_stem rp.base
        else "/" ++ (rp.parentStr ++ "/" ++ file_stem rp.base)) "/" = true
    by_cases hs : starts_with (rp.parentStr ++ "/" ++ file_stem rp.base) "/" = true
    · rw [if_pos hs]
      exact hs
    · rw [if_neg hs]
      exact starts_with_slash_append _
  · intro b hb hbase
    rw [hbase]
    exact file_stem_append_md b hb

/-- Closed instance of the route derivation at a concrete content file. -/
theorem route_path_spec_witness :
    starts_with pHello.path "/" = true ∧ file_stem rpHello.base = "hello" := by
  have h := route_path_spec exHello fsHello rpHello pHello (by decide)
  exact ⟨h.2.1, h.2.2 "hello" (by decide) (by decide)⟩

/-- C2: the canonical URL is exactly the fixed origin concatenated with
route_path, and the cover-image URL is the origin concatenated with the
cover image field of the front matter. -/
theorem canonical_urls_spec (ext : Externals) (fsys : RPath → Option String)
    (rp : RPath) (post : Post) (h : get_post ext fsys rp = Except.ok post) :
    post.full_url = ORIGIN ++ post.path
    ∧ post.full_image_url = ORIGIN ++ post.matter.cover.image := by
  obtain ⟨c, parsed, hf, hp, hpost⟩ := get_post_ok_elim h
  subst hpost
  exact ⟨rfl, rfl⟩

/-- Closed instance of the URL derivations at a concrete content file. -/
theorem canonical_urls_spec_witness :
    pHello.full_url = "https://lndev.nl/blog/hello"
    ∧ pHello.full_image_url = "https://lndev.nl/img/c.png" := by
  have h := canonical_urls_spec exHello fsHello rpHello pHello (by decide)
  exact ⟨h.1.trans (by decide), h.2.trans (by decide)⟩

/-- C3: the reading-time label renders seconds below sixty and whole
minutes by truncating integer division from sixty up; 45 gives 45 sec
read, 185 gives 3 min read, 60 gives 1 min read; and the Page field
carries exactly this label of the estimated seconds of the body. -/
theorem reading_time_spec :
    (∀ s : Nat, s < 60 → readTimeLabel s = Nat.repr s ++ " sec read")
    ∧ (∀ s : Nat, 60 ≤ s → readTimeLabel s = Nat.repr (s / 60) ++ " min read")
    ∧ readTimeLabel 45 = "45 sec read"
    ∧ readTimeLabel 185 = "3 min read"
    ∧ readTimeLabel 60 = "1 min read"
    ∧ (∀ (ext : Externals) (fsys : RPath → Option String) (rp : RPath) (post : Post)
        (c : String) (parsed : PostMatter × String),
        get_post ext fsys rp = Except.ok post → fsys rp = some c →
        ext.parseMatter c = some parsed →
        post.reading_time = readTimeLabel (ext.readTime parsed.2)) := by
  refine ⟨?_, ?_, by decide, by decide, by decide, ?_⟩
  · intro s hs
    rw [readTimeLabel, if_pos hs]
  · intro s hs
    rw [readTimeLabel, if_neg (Nat.not_lt.mpr hs)]
  · intro ext fsys rp post c parsed h hf hp
    obtain ⟨c2, parsed2, hf2, hp2, hpost⟩ := get_post_ok_elim h
    rw [hf] at hf2
    cases Option.some.inj hf2
    rw [hp] at hp2
    cases Option.some.inj hp2
    subst hpost
    rfl

/-- Closed instance of the reading-time bucketing. -/
theorem reading_time_spec_witness :
    readTimeLabel 45 = Nat.repr 45 ++ " sec read"
    ∧ readTimeLabel 185 = Nat.repr (185 / 60) ++ " min read" :=
  ⟨reading_time_spec.1 45 (by decide), reading_time_spec.2.1 185 (by decide)⟩

/-- C4: on success the collection builder returns the parsed pages
sorted by front-matter date descending under the lexicographic string
order, as a permutation of the parsed sequence; three posts dated
2023-01-01, 2024-06-15 and 2023-06-01 come out in the order 2024-06-15,
2023-06-01, 2023-01-01. -/
theorem collection_sorted_spec :
    (∀ (ext : Externals) (fsys : RPath → Option String) (entries : List WEntry)
        (posts : List Post),
        collectResults ((collectPaths entries).map (get_post ext fsys)) = Except.ok posts →
        ∃ sorted, collect_posts ext fsys entries = Except.ok sorted
          ∧ List.Perm sorted posts
          ∧ List.Pairwise (fun a b => b.matter.date ≤ a.matter.date) sorted)
    ∧ (collect_posts exStub fsC4 entriesC4).map (fun l => l.map (fun p => p.matter.date)) =
        Except.ok ["2024-06-15", "2023-06-01", "2023-01-01"] := by
  constructor
  · intro ext fsys entries posts h
    refine ⟨posts.insertionSort dateDesc, ?_, ?_, ?_⟩
    · unfold collect_posts
      rw [h]
    · exact List.perm_insertionSort dateDesc posts
    · exact List.sorted_insertionSort dateDesc posts
  · decide

/-- Closed instance of the sorting contract on the three-date fixture. -/
theorem collection_sorted_spec_witness :
    ∃ sorted, collect_posts exStub fsC4 entriesC4 = Except.ok sorted
      ∧ List.Perm sorted postsC4
      ∧ List.Pairwise (fun a b => b.matter.date ≤ a.matter.date) sorted :=
  collection_sorted_spec.1 exStub fsC4 entriesC4 postsC4 (by decide)

/-- C5: every Page carries exactly the six configured share platforms,
each URL is the literal platform template with the form-urlencoded
title, canonical URL and comma-joined tags substituted, and each label
reads Share title on platform. -/
theorem share_links_spec (ext : Externals) (fsys : RPath → Option String)
    (rp : RPath) (post : Post) (h : get_post ext fsys rp = Except.ok post) :
    (shareLinks post).map Prod.fst =
      ["X", "Facebook", "LinkedIn", "Reddit", "WhatsApp", "Telegram"]
    ∧ post.twitter.url = "https://x.com/intent/tweet/?text=" ++
        form_urlencoded post.matter.title ++ "&url=" ++ form_urlencoded post.full_url ++
        "&hashtags=" ++ form_urlencoded (String.intercalate "," post.matter.tags)
    ∧ post.facebook.url = "https://facebook.com/sharer/sharer.php?u=" ++
        form_urlencoded post.full_url
    ∧ post.linkedin.url = "https://www.linkedin.com/shareArticle?mini=true&url=" ++
        form_urlencoded post.full_url ++ "&title=" ++ form_urlencoded post.matter.title ++
        "&summary=" ++ form_urlencoded post.matter.title ++ "&source=" ++
        form_urlencoded post.full_url
    ∧ post.reddit.url = "https://reddit.com/submit?url=" ++
        form_urlencoded post.full_url ++ "&title=" ++ form_urlencoded post.matter.title
    ∧ post.whatsapp.url = "https://api.whatsapp.com/send?text=" ++
        form_urlencoded post.matter.title ++ "%20-%20" ++ form_urlencoded post.full_url
    ∧ post.telegram.url = "https://telegram.me/share/url?text=" ++
        form_urlencoded post.matter.title ++ "&url=" ++ form_urlencoded post.full_url
    ∧ post.twitter.label = "Share " ++ post.matter.title ++ " on X"
    ∧ post.facebook.label = "Share " ++ post.matter.title ++ " on Facebook"
    ∧ post.linkedin.label = "Share " ++ post.matter.title ++ " on LinkedIn"
    ∧ post.reddit.label = "Share " ++ post.matter.title ++ " on Reddit"
    ∧ post.whatsapp.label = "Share " ++ post.matter.title ++ " on WhatsApp"
    ∧ post.telegram.label = "Share " ++ post.matter.title ++ " on Telegram" := by
  obtain ⟨c, parsed, hf, hp, hpost⟩ := get_post_ok_elim h
  subst hpost
  refine ⟨rfl, rfl, rfl, rfl, rfl, rfl, rfl, ?_, ?_, ?_, ?_, ?_, ?_⟩
  · exact String.append_assoc _ " on " "X"
  · exact String.append_assoc _ " on " "Facebook"
  · exact String.append_assoc _ " on " "LinkedIn"
  · exact String.append_assoc _ " on " "Reddit"
  · exact String.append_assoc _ " on " "WhatsApp"
  · exact String.append_assoc _ " on " "Telegram"

/-- Closed instance: the Facebook share URL and label of the Hello World
page. -/
theorem share_links_spec_witness :
    pHello.facebook.url =
      "https://facebook.com/sharer/sharer.php?u=https%3A%2F%2Flndev.nl%2Fblog%2Fhello"
    ∧ pHello.facebook.label = "Share Hello World on Facebook" := by
  have h := share_links_spec exHello fsHello rpHello pHello (by decide)
  exact ⟨h.2.2.1.trans (by decide), h.2.2.2.2.2.2.2.2.1.trans (by decide)⟩

/-- C6: the output writer creates the ancestor directories of the
target, minifies the buffer with the fixed configuration exactly when
the target extension is html and writes it unchanged otherwise, and the
recursive asset copy applies the same conditional rule to every copied
file. -/
theorem output_writer_spec (ext : Externals) :
    (∀ (path : String) (contents : List Nat),
        (write_file ext path contents).bytes =
          (if extension path = some "html" then minify_html ext contents else contents)
        ∧ (write_file ext path contents).dirs = ancestorDirs path
        ∧ (write_file ext path contents).path = path)
    ∧ (∀ (dst : String) (t : FsTree),
        copy_dir_all ext dst t =
          (filesOf t).map (fun pc => write_file ext (pathJoin dst pc.1) pc.2)) :=
  ⟨fun path contents => ⟨write_file_bytes ext path contents, rfl, rfl⟩,
   copy_dir_all_eq ext⟩

/-- C7: a front-matter decode failure is fatal: the parser yields the
decode error instead of any partial Page, the whole collection fails,
and the build performs no write besides the asset copy for that run. -/
theorem decode_failure_spec :
    (∀ (ext : Externals) (fsys : RPath → Option String) (rp : RPath) (c : String),
        fsys rp = some c → ext.parseMatter c = none →
        get_post ext fsys rp = Except.error BuildError.decodeError)
    ∧ (∀ (ext : Externals) (w : World) (rp : RPath) (c : String),
        rp ∈ collectPaths w.postsEntries → w.readFile rp = some c →
        ext.parseMatter c = none →
        ∃ e, collect_posts ext w.readFile w.postsEntries = Except.error e
          ∧ main ext w = (copy_dir_all ext OUT_DIR w.publicEntries, some e)) := by
  have h1 : ∀ (ext : Externals) (fsys : RPath → Option String) (rp : RPath) (c : String),
      fsys rp = some c → ext.parseMatter c = none →
      get_post ext fsys rp = Except.error BuildError.decodeError := by
    intro ext fsys rp c hf hp
    rw [get_post_some ext fsys rp c hf, hp]
  refine ⟨h1, ?_⟩
  intro ext w rp c hmem hf hp
  have hgp : get_post ext w.readFile rp = Except.error BuildError.decodeError :=
    h1 ext w.readFile rp c hf hp
  have hmm : Except.error BuildError.decodeError ∈
      (collectPaths w.postsEntries).map (get_post ext w.readFile) := by
    have := List.mem_map_of_mem (get_post ext w.readFile) hmem
    rw [hgp] at this
    exact this
  obtain ⟨e, hce⟩ := collectResults_error_of_mem hmm
  have hcol : collect_posts ext w.readFile w.postsEntries = Except.error e := by
    unfold collect_posts
    rw [hce]
  refine ⟨e, hcol, ?_⟩
  unfold main
  rw [hcol]

/-- Closed instance: a decoder that always fails aborts the build with
only the asset copy performed. -/
theorem decode_failure_spec_witness :
    ∃ e, collect_posts exBad wBad.readFile wBad.postsEntries = Except.error e
      ∧ main exBad wBad = (copy_dir_all exBad OUT_DIR wBad.publicEntries, some e) :=
  decode_failure_spec.2 exBad wBad rpBad "x" (by decide) (by decide) (by decide)

/-- C8 counterexample: with a traversal that only yields the error entry
an unreadable root produces, collect_posts succeeds with the empty
collection instead of failing. -/
theorem root_read_failure_counterexample :
    collect_posts exStub fsStub [WEntry.err] = Except.ok []
    ∧ ∀ e, collect_posts exStub fsStub [WEntry.err] ≠ Except.error e := by
  refine ⟨by decide, ?_⟩
  intro e h
  rw [show collect_posts exStub fsStub [WEntry.err] = Except.ok [] from by decide] at h
  exact nomatch h

/-- C8 amended: a failure to read the content root is silently
swallowed: when the traversal yields only error entries, the collection
builds successfully as the empty sequence. -/
theorem root_read_failure_amended (ext : Externals) (fsys : RPath → Option String)
    (entries : List WEntry) (h : ∀ e ∈ entries, e = WEntry.err) :
    collect_posts ext fsys entries = Except.ok [] :=
  collect_posts_all_err ext fsys entries h

/-- Closed instance of the amended root-read behaviour. -/
theorem root_read_failure_amended_witness :
    collect_posts exStub fsStub [WEntry.err] = Except.ok ([] : List Post) :=
  root_read_failure_amended exStub fsStub [WEntry.err] (by decide)

/-- C9: a successful build writes one page per post and draft at the
output root joined with the slash-stripped route path and index.html,
one listing at blog index.html for the published collection, and one
listing at drafts index.html for the drafts. -/
theorem output_layout_spec (ext : Externals) (w : World) (posts drafts : List Post)
    (ws : List Write)
    (hp : collect_posts ext w.readFile w.postsEntries = Except.ok posts)
    (hd : collect_posts ext w.readFile w.draftsEntries = Except.ok drafts)
    (hm : main ext w = (ws, none)) :
    (∀ p ∈ posts ++ drafts, ∃ html, ext.renderPost p = Except.ok html
        ∧ write_file ext (postOutPath p) (strBytes html) ∈ ws)
    ∧ (∃ bh, ext.renderBlog (blogFor posts) = Except.ok bh
        ∧ write_file ext (pathJoin (pathJoin OUT_DIR "blog") "index.html")
            (strBytes bh) ∈ ws)
    ∧ (∃ dh, ext.renderBlog (draftBlogFor drafts) = Except.ok dh
        ∧ write_file ext (pathJoin (pathJoin OUT_DIR "drafts") "index.html")
            (strBytes dh) ∈ ws) := by
  obtain ⟨posts2, drafts2, pws, bh, dh, h1, h2, h3, h4, h5, h6⟩ := main_ok_elim hm
  rw [hp] at h1
  cases Except.ok.inj h1
  rw [hd] at h2
  cases Except.ok.inj h2
  refine ⟨?_, ⟨bh, h4, ?_⟩, ⟨dh, h5, ?_⟩⟩
  · intro p hpmem
    obtain ⟨html, hr, hmem⟩ := writePages_ok_mem h3 p hpmem
    refine ⟨html, hr, ?_⟩
    rw [h6]
    exact List.mem_append_left _ (List.mem_append_right _ hmem)
  · rw [h6]
    exact List.mem_append_right _ (by simp)
  · rw [h6]
    exact List.mem_append_right _ (by simp)

/-- Closed instance: the concrete one-post one-draft build contains the
published listing write, the drafts listing write, and the page write of
the first post. -/
theorem output_layout_spec_witness :
    write_file exStub (pathJoin (pathJoin OUT_DIR "blog") "index.html")
      (strBytes "B") ∈ wsC9
    ∧ write_file exStub (pathJoin (pathJoin OUT_DIR "drafts") "index.html")
      (strBytes "B") ∈ wsC9
    ∧ write_file exStub (postOutPath (postsC9.headD default)) (strBytes "P") ∈ wsC9 := by
  have h := output_layout_spec exStub wC9 postsC9 draftsC9 wsC9
    (by decide) (by decide) (by decide)
  obtain ⟨hpages, ⟨bh, hb, hbm⟩, ⟨dh, hdb, hdm⟩⟩ := h
  have hbh : Except.ok "B" = Except.ok bh := hb
  have hdh : Except.ok "B" = Except.ok dh := hdb
  cases Except.ok.inj hbh
  cases Except.ok.inj hdh
  obtain ⟨html, hr, hmem⟩ := hpages (postsC9.headD default) (by decide)
  have hph : Except.ok "P" = Except.ok html := hr
  cases Except.ok.inj hph
  exact ⟨hbm, hdm, hmem⟩

/-- C10: the collection builder parses exactly the traversal entries
that are files with UTF-8 paths ending in the Markdown extension; error
entries, directories, non-UTF-8 paths and other extensions are silently
skipped, so per-entry traversal errors never fail collect_posts. -/
theorem traversal_skip_spec :
    (∀ entries : List WEntry, collectPaths entries = entries.filterMap selectEntry)
    ∧ (∀ (rp : RPath) (u : Bool),
        selectEntry (WEntry.file rp u) =
          (if u && ends_with rp.toStr ".md" then some rp else none))
    ∧ (∀ rp : RPath, selectEntry (WEntry.dir rp) = none)
    ∧ selectEntry WEntry.err = none
    ∧ (∀ (ext : Externals) (fsys : RPath → Option String) (entries : List WEntry),
        collect_posts ext fsys (entries.filter (fun e => !e.isErr)) =
          collect_posts ext fsys entries) :=
  ⟨collectPaths_eq, fun _ _ => rfl, fun _ => rfl, rfl, collect_posts_filter_not_err⟩

end Lndev
